import Mathlib

/-!
Verification of a recursive-descent JSON tokenizer and parser.

The development shallowly embeds the program's data model and functions:
the input is a list of characters, Rust's `i64` is an `Int` with an
explicit range check performed by the numeric parser, and `f64` literal
values are modelled by the exact rational value of the scanned decimal
text (every number checked below is exactly representable).  Fallible
functions return `Except String`, carrying the program's error messages.
The mutable cursor of the parser becomes an explicit position threaded
through the functions; the `while` loops of the parser become recursion
on an explicit fuel argument, with adequacy of the fuel proved below.
-/

namespace Tosqweel

/-- Numbers are a tagged union of a float and a 64-bit signed integer.
The float payload is modelled as the exact rational value of the decimal
source text. -/
inductive Number where
  | Float : Rat → Number
  | Integer : Int → Number
deriving DecidableEq

/-- Lexical tokens produced by the tokenizer. -/
inductive Token where
  | LeftBrace : Token
  | LeftBracket : Token
  | Number : Number → Token
  | RightBrace : Token
  | RightBracket : Token
  | String : List Char → Token
  | Colon : Token
  | Comma : Token
  | Bool : Bool → Token
  | Null : Token
deriving DecidableEq

/-- Parsed JSON values.  The `Object` payload models the hash map as an
association list whose keys are unique by construction (insertion
overwrites an existing binding). -/
inductive JsonObject where
  | Array : List JsonObject → JsonObject
  | Bool : Bool → JsonObject
  | Null : JsonObject
  | Number : Number → JsonObject
  | Object : List (List Char × JsonObject) → JsonObject
  | String : List Char → JsonObject

instance : Nonempty JsonObject := ⟨JsonObject.Null⟩

/-- Code points with the Unicode White_Space property, the set accepted
by Rust's `char::is_whitespace`. -/
def whitespaceCodes : List Nat :=
  [9, 10, 11, 12, 13, 32, 133, 160, 5760, 8192, 8193, 8194, 8195, 8196,
   8197, 8198, 8199, 8200, 8201, 8202, 8232, 8233, 8239, 8287, 12288]

/-- Whether a character is whitespace, per `char::is_whitespace`. -/
def isWhitespaceChar (c : Char) : Bool :=
  whitespaceCodes.contains c.toNat

/-- Drops the longest whitespace run at the front of the input. -/
def skip_whitespace : List Char → List Char
  | [] => []
  | c :: rest => if isWhitespaceChar c then skip_whitespace rest else c :: rest

/-- Scanning loop of `tokenize_string`: copies characters verbatim until
a closing quote, failing at end of input. -/
def tokenize_string_loop : List Char → Except String (List Char × List Char)
  | [] => .error "Unterminated string"
  | c :: rest =>
    if c = '"' then .ok ([], rest)
    else
      match tokenize_string_loop rest with
      | .ok (s, rem) => .ok (c :: s, rem)
      | .error e => .error e

/-- String scanning: the input starts at the opening quote, which is
skipped; characters are then copied until the next quote. -/
def tokenize_string (data : List Char) : Except String (List Char × List Char) :=
  tokenize_string_loop (data.drop 1)

/-- Value of a run of decimal digits, most significant first. -/
def digitsVal (ds : List Char) : Nat :=
  ds.foldl (fun a c => a * 10 + (c.toNat - 48)) 0

/-- Rust's `i64` parsing of the accumulated text: an optional sign, a
nonempty digit run, and a 64-bit signed range check. -/
def parseI64 (s : List Char) : Except String Int :=
  let p := match s with
    | '-' :: r => (true, r)
    | _ => (false, s)
  if p.2.isEmpty || !(p.2.all Char.isDigit) then
    .error "invalid digit found in string"
  else
    let v : Int := if p.1 then -(digitsVal p.2 : Int) else (digitsVal p.2 : Int)
    if v < -(2 ^ 63) then .error "number too small to fit in target type"
    else if v > 2 ^ 63 - 1 then .error "number too large to fit in target type"
    else .ok v

/-- Rust's `f64` parsing restricted to the alphabet the number scanner can
produce (optional leading sign, digits and dots): it succeeds exactly on
an optional sign, at most one dot, and at least one digit.  The value of
the text `ip.fp` is the rational `(ip ++ fp) / 10 ^ length fp`, built
with `mkRat` so that it evaluates definitionally. -/
def parseFloat (s : List Char) : Except String Rat :=
  let p := match s with
    | '-' :: r => (true, r)
    | _ => (false, s)
  let ip := p.2.takeWhile (fun c => c != '.')
  let rest := p.2.dropWhile (fun c => c != '.')
  if !(ip.all Char.isDigit) then .error "invalid float literal"
  else
    match rest with
    | [] =>
      if ip.isEmpty then .error "invalid float literal"
      else
        .ok (mkRat (if p.1 then -(digitsVal ip : Int) else (digitsVal ip : Int)) 1)
    | _ :: fp =>
      if fp.contains '.' || !(fp.all Char.isDigit) then .error "invalid float literal"
      else if ip.isEmpty && fp.isEmpty then .error "invalid float literal"
      else
        let n : Int := digitsVal (ip ++ fp)
        .ok (mkRat (if p.1 then -n else n) (10 ^ fp.length))

/-- Splits off the longest run of ASCII digits and dots at the front of
the input, mirroring the scanning loop of `tokenize_number`. -/
def scanDigits : List Char → List Char × List Char
  | [] => ([], [])
  | c :: rest =>
    if c.isDigit || c == '.' then
      let p := scanDigits rest
      (c :: p.1, p.2)
    else ([], c :: rest)

/-- Splits the number's optional leading sign from the rest of the
input. -/
def numberTail (data : List Char) : Bool × List Char :=
  match data with
  | [] => (false, [])
  | c :: rest => if c = '-' then (true, rest) else (false, c :: rest)

/-- The digit-and-dot run scanned by `tokenize_number`, after the
optional leading sign. -/
def numberRun (data : List Char) : List Char :=
  (scanDigits (numberTail data).2).1

/-- Number scanning: an optional leading `-`, then a run of digits and
dots; a dot anywhere in the run selects the `Float` variant, otherwise
the `Integer` variant, and the accumulated text is handed to the
standard numeric parser. -/
def tokenize_number (data : List Char) : Except String (Number × List Char) :=
  let p := scanDigits (numberTail data).2
  let s := (if (numberTail data).1 then ['-'] else []) ++ p.1
  if '.' ∈ p.1 then
    match parseFloat s with
    | .ok v => .ok (.Float v, p.2)
    | .error e => .error e
  else
    match parseI64 s with
    | .ok v => .ok (.Integer v, p.2)
    | .error e => .error e

/-- Boolean scanning: matches the keywords `true` and `false` exactly,
case-sensitively, at their exact lengths. -/
def tokenize_bool (data : List Char) : Except String (Bool × List Char) :=
  if data.take 4 = ['t', 'r', 'u', 'e'] then .ok (true, data.drop 4)
  else if data.take 5 = ['f', 'a', 'l', 's', 'e'] then .ok (false, data.drop 5)
  else .error "Invalid boolean"

/-- Null scanning: matches the keyword `null` exactly. -/
def tokenize_null (data : List Char) : Except String (List Char) :=
  if data.take 4 = ['n', 'u', 'l', 'l'] then .ok (data.drop 4)
  else .error "Invalid null"

/-- One dispatch step of the tokenizer's scanning loop, on a nonempty
rest of input whose head is `c`: produces one token and the remaining
input, or the error of the sub-scanner. -/
def tokenizeOne (c : Char) (tail : List Char) : Except String (Token × List Char) :=
  if c = '\x7b' then .ok (.LeftBrace, tail)
  else if c = '\x7d' then .ok (.RightBrace, tail)
  else if c = '[' then .ok (.LeftBracket, tail)
  else if c = ']' then .ok (.RightBracket, tail)
  else if c = ':' then .ok (.Colon, tail)
  else if c = ',' then .ok (.Comma, tail)
  else if c = '"' then
    match tokenize_string (c :: tail) with
    | .ok (s, rem) => .ok (.String s, rem)
    | .error e => .error e
  else if c = 't' ∨ c = 'f' then
    match tokenize_bool (c :: tail) with
    | .ok (b, rem) => .ok (.Bool b, rem)
    | .error e => .error e
  else if c = 'n' then
    match tokenize_null (c :: tail) with
    | .ok rem => .ok (.Null, rem)
    | .error e => .error e
  else if c = '-' ∨ c.isDigit then
    match tokenize_number (c :: tail) with
    | .ok (n, rem) => .ok (.Number n, rem)
    | .error e => .error e
  else .error ("Unexpected character: " ++ String.mk [c])

/-- Sentinel message of the fuel embedding; proved unreachable for
sufficient fuel below.  It is distinct from every message the program
produces. -/
def fuelErr : String := "fuel exhausted"

/-- The tokenizer's scanning loop: skip whitespace, dispatch on the next
character, and continue on the remaining input.  The loop consumes at
least one character per iteration, so fuel equal to the input length
suffices. -/
def tokenizeAux : Nat → List Char → Except String (List Token)
  | 0, _ => .error fuelErr
  | f + 1, data =>
    match skip_whitespace data with
    | [] => .ok []
    | c :: tail =>
      match tokenizeOne c tail with
      | .ok (t, rem) =>
        match tokenizeAux f rem with
        | .ok ts => .ok (t :: ts)
        | .error e => .error e
      | .error e => .error e

/-- Tokenization of a character sequence. -/
def tokenize (data : List Char) : Except String (List Token) :=
  tokenizeAux (data.length + 1) data

/-- Rendering of a number, used only in the unexpected-token message. -/
def numberDisplay : Number → String
  | .Float q => toString q
  | .Integer i => toString i

/-- Rendering of a token, used only in the unexpected-token message. -/
def tokenDisplay : Token → String
  | .LeftBrace => "LeftBrace"
  | .LeftBracket => "LeftBracket"
  | .Number n => numberDisplay n
  | .RightBrace => "RightBrace"
  | .RightBracket => "RightBracket"
  | .String s => "String(" ++ String.mk s ++ ")"
  | .Colon => "Colon"
  | .Comma => "Comma"
  | .Bool b => toString b
  | .Null => "Null"

/-- The hash map's `insert`: overwrites the binding of an existing key,
otherwise appends a new binding. -/
def insertKey (obj : List (List Char × JsonObject)) (key : List Char)
    (v : JsonObject) : List (List Char × JsonObject) :=
  match obj with
  | [] => [(key, v)]
  | (k, w) :: rest =>
    if k = key then (key, v) :: rest else (k, w) :: insertKey rest key v

/-- The hash map's lookup on the association-list model. -/
def lookupKey (obj : List (List Char × JsonObject)) (key : List Char) :
    Option JsonObject :=
  match obj with
  | [] => none
  | (k, w) :: rest => if k = key then some w else lookupKey rest key

/-- Number of bindings of a key in the association-list model. -/
def countKey (obj : List (List Char × JsonObject)) (key : List Char) : Nat :=
  match obj with
  | [] => 0
  | (k, _) :: rest => (if k = key then 1 else 0) + countKey rest key

/-- The map invariant: every key occurs at most once. -/
def keysNodup (obj : List (List Char × JsonObject)) : Prop :=
  (obj.map Prod.fst).Nodup

mutual

/-- Value dispatch: the token at the cursor determines the shape of the
value; leaves advance the cursor by one, containers delegate. -/
def parse_value (fuel : Nat) (tokens : List Token) (pos : Nat) :
    Except String (JsonObject × Nat) :=
  match fuel with
  | 0 => .error fuelErr
  | f + 1 =>
    if h : pos < tokens.length then
      match tokens[pos] with
      | .LeftBrace => parse_json_object f tokens pos
      | .LeftBracket => parse_json_array f tokens pos
      | .String s => .ok (.String s, pos + 1)
      | .Number n => .ok (.Number n, pos + 1)
      | .Bool b => .ok (.Bool b, pos + 1)
      | .Null => .ok (.Null, pos + 1)
      | t => .error ("Unexpected token: " ++ tokenDisplay t)
    else .error "Unexpected end of tokens"
termination_by structural fuel

/-- Object parse: skips the opening brace and runs the member loop with
an empty map. -/
def parse_json_object (fuel : Nat) (tokens : List Token) (pos : Nat) :
    Except String (JsonObject × Nat) :=
  match fuel with
  | 0 => .error fuelErr
  | f + 1 => parse_object_loop f tokens (pos + 1) []
termination_by structural fuel

/-- Member loop of the object parse: a closing brace returns the map, a
comma is skipped, a string key must be followed by a colon and a value,
which is inserted (overwriting a previous binding of the key); any other
token, or running out of tokens, is an error. -/
def parse_object_loop (fuel : Nat) (tokens : List Token) (pos : Nat)
    (obj : List (List Char × JsonObject)) : Except String (JsonObject × Nat) :=
  match fuel with
  | 0 => .error fuelErr
  | f + 1 =>
    if h : pos < tokens.length then
      match tokens[pos] with
      | .RightBrace => .ok (.Object obj, pos + 1)
      | .Comma => parse_object_loop f tokens (pos + 1) obj
      | .String key =>
        match tokens[pos + 1]? with
        | some .Colon =>
          match parse_value f tokens (pos + 2) with
          | .ok (v, p) => parse_object_loop f tokens p (insertKey obj key v)
          | .error e => .error e
        | _ => .error "Expected colon after key"
      | _ => .error "Expected string key in object"
    else .error "Unterminated object"
termination_by structural fuel

/-- Array parse: skips the opening bracket and runs the element loop
with an empty sequence. -/
def parse_json_array (fuel : Nat) (tokens : List Token) (pos : Nat) :
    Except String (JsonObject × Nat) :=
  match fuel with
  | 0 => .error fuelErr
  | f + 1 => parse_array_loop f tokens (pos + 1) []
termination_by structural fuel

/-- Element loop of the array parse: a closing bracket returns the
collected sequence, a comma is skipped, anything else is parsed as a
value and appended; running out of tokens is an error. -/
def parse_array_loop (fuel : Nat) (tokens : List Token) (pos : Nat)
    (arr : List JsonObject) : Except String (JsonObject × Nat) :=
  match fuel with
  | 0 => .error fuelErr
  | f + 1 =>
    if h : pos < tokens.length then
      match tokens[pos] with
      | .RightBracket => .ok (.Array arr, pos + 1)
      | .Comma => parse_array_loop f tokens (pos + 1) arr
      | _ =>
        match parse_value f tokens pos with
        | .ok (v, p) => parse_array_loop f tokens p (arr ++ [v])
        | .error e => .error e
    else .error "Unterminated array"
termination_by structural fuel

end

/-- Fuel sufficient for any parse over the token sequence; adequacy is
proved below. -/
def parseFuel (tokens : List Token) : Nat := 3 * tokens.length + 1

/-- Parsing of a token sequence: requires it to be nonempty, parses one
value at position 0 and discards the final cursor, ignoring any trailing
tokens. -/
def parse_tokens (tokens : List Token) : Except String JsonObject :=
  if tokens.isEmpty then .error "Empty input"
  else
    match parse_value (parseFuel tokens) tokens 0 with
    | .ok (v, _) => .ok v
    | .error e => .error e

/-- The top-level entry: tokenize, then parse the root value. -/
def parse_object (data : List Char) : Except String JsonObject :=
  match tokenize data with
  | .ok tokens => parse_tokens tokens
  | .error e => .error e

/-! Lemmas about the tokenizer. -/

theorem skip_whitespace_length (d : List Char) :
    (skip_whitespace d).length ≤ d.length := by
  induction d with
  | nil => simp [skip_whitespace]
  | cons c rest ih =>
    simp only [skip_whitespace]
    split
    · exact Nat.le_trans ih (Nat.le_succ _)
    · simp

theorem skip_whitespace_append (ws cs : List Char)
    (h : ∀ c ∈ ws, isWhitespaceChar c = true) :
    skip_whitespace (ws ++ cs) = skip_whitespace cs := by
  induction ws with
  | nil => simp
  | cons c rest ih =>
    have hc : isWhitespaceChar c = true := h c (by simp)
    simp only [List.cons_append, skip_whitespace, hc, if_true]
    exact ih (fun x hx => h x (by simp [hx]))

theorem skip_whitespace_all (ws : List Char)
    (h : ∀ c ∈ ws, isWhitespaceChar c = true) :
    skip_whitespace ws = [] := by
  have := skip_whitespace_append ws [] h
  simpa [skip_whitespace] using this

theorem tokenize_string_loop_decompose (d : List Char) :
    ∀ s rem, tokenize_string_loop d = .ok (s, rem) →
      d = s ++ '"' :: rem ∧ '"' ∉ s := by
  induction d with
  | nil => intro s rem h; simp [tokenize_string_loop] at h
  | cons c rest ih =>
    intro s rem h
    simp only [tokenize_string_loop] at h
    by_cases hc : c = '"'
    · subst hc
      rw [if_pos rfl] at h
      simp only [Except.ok.injEq, Prod.mk.injEq] at h
      obtain ⟨hs, hrem⟩ := h
      subst hs
      subst hrem
      simp
    · rw [if_neg hc] at h
      cases hres : tokenize_string_loop rest with
      | error e => rw [hres] at h; simp at h
      | ok p =>
        obtain ⟨s', rem'⟩ := p
        rw [hres] at h
        simp only [Except.ok.injEq, Prod.mk.injEq] at h
        obtain ⟨hs, hrem⟩ := h
        obtain ⟨hdec, hnot⟩ := ih s' rem' hres
        subst hs
        subst hrem
        subst hdec
        refine ⟨rfl, ?_⟩
        intro hmem
        rcases List.mem_cons.mp hmem with h1 | h1
        · exact hc h1.symm
        · exact hnot h1

theorem tokenize_string_loop_build (s rem : List Char) (h : '"' ∉ s) :
    tokenize_string_loop (s ++ '"' :: rem) = .ok (s, rem) := by
  induction s with
  | nil => simp [tokenize_string_loop]
  | cons c s' ih =>
    have hc : c ≠ '"' := fun hc => h (hc ▸ List.mem_cons_self c s')
    have hs' : '"' ∉ s' := fun hm => h (List.mem_cons_of_mem c hm)
    show tokenize_string_loop (c :: (s' ++ '"' :: rem)) = .ok (c :: s', rem)
    simp only [tokenize_string_loop, if_neg hc]
    rw [ih hs']

theorem tokenize_string_loop_err (d : List Char) :
    ∀ e, tokenize_string_loop d = .error e →
      e = "Unterminated string" ∧ '"' ∉ d := by
  induction d with
  | nil => intro e h; simp [tokenize_string_loop] at h; simp [h]
  | cons c rest ih =>
    intro e h
    simp only [tokenize_string_loop] at h
    by_cases hc : c = '"'
    · rw [if_pos hc] at h; simp at h
    · rw [if_neg hc] at h
      cases hres : tokenize_string_loop rest with
      | error e' =>
        rw [hres] at h
        simp only [Except.error.injEq] at h
        subst h
        obtain ⟨he, hnot⟩ := ih e' hres
        refine ⟨he, ?_⟩
        intro hmem
        rcases List.mem_cons.mp hmem with h1 | h1
        · exact hc h1.symm
        · exact hnot h1
      | ok p => rw [hres] at h; simp at h

theorem tokenize_string_loop_no_quote (d : List Char) (h : '"' ∉ d) :
    tokenize_string_loop d = .error "Unterminated string" := by
  induction d with
  | nil => simp [tokenize_string_loop]
  | cons c rest ih =>
    have hc : c ≠ '"' := fun hc => h (hc ▸ List.mem_cons_self c rest)
    have hr : '"' ∉ rest := fun hm => h (List.mem_cons_of_mem c hm)
    simp only [tokenize_string_loop, if_neg hc, ih hr]

theorem tokenize_string_length (d : List Char) (s rem : List Char)
    (h : tokenize_string d = .ok (s, rem)) : rem.length < d.length := by
  have hdec := (tokenize_string_loop_decompose (d.drop 1) s rem h).1
  have hlen := congrArg List.length hdec
  simp [List.length_drop] at hlen
  omega

theorem scanDigits_append (d : List Char) :
    (scanDigits d).1 ++ (scanDigits d).2 = d := by
  induction d with
  | nil => simp [scanDigits]
  | cons c rest ih =>
    simp only [scanDigits]
    split
    · simpa using ih
    · simp

theorem numberTail_true (d : List Char) (h : (numberTail d).1 = true) :
    d = '-' :: (numberTail d).2 := by
  cases d with
  | nil => simp [numberTail] at h
  | cons c rest =>
    by_cases hc : c = '-'
    · subst hc; simp [numberTail]
    · simp [numberTail, hc] at h

theorem numberTail_false (d : List Char) (h : (numberTail d).1 = false) :
    (numberTail d).2 = d := by
  cases d with
  | nil => simp [numberTail]
  | cons c rest =>
    by_cases hc : c = '-'
    · simp [numberTail, hc] at h
    · simp [numberTail, hc]

theorem parseI64_ok_ne_nil (s : List Char) (v : Int) (h : parseI64 s = .ok v) :
    s ≠ [] := by
  intro hs
  subst hs
  simp [parseI64] at h

theorem parseFloat_ok_ne_nil (s : List Char) (v : Rat) (h : parseFloat s = .ok v) :
    s ≠ [] := by
  intro hs
  subst hs
  simp [parseFloat] at h

theorem tokenize_number_shape (d : List Char) (n : Number) (rem : List Char)
    (h : tokenize_number d = .ok (n, rem)) :
    rem = (scanDigits (numberTail d).2).2 ∧
      (if (numberTail d).1 then ['-'] else []) ++ (scanDigits (numberTail d).2).1 ≠ [] := by
  simp only [tokenize_number] at h
  split at h
  · cases hp : parseFloat ((if (numberTail d).1 then ['-'] else []) ++
        (scanDigits (numberTail d).2).1) with
    | error e => rw [hp] at h; simp at h
    | ok v =>
      rw [hp] at h
      simp only [Except.ok.injEq, Prod.mk.injEq] at h
      exact ⟨h.2.symm, parseFloat_ok_ne_nil _ _ hp⟩
  · cases hp : parseI64 ((if (numberTail d).1 then ['-'] else []) ++
        (scanDigits (numberTail d).2).1) with
    | error e => rw [hp] at h; simp at h
    | ok v =>
      rw [hp] at h
      simp only [Except.ok.injEq, Prod.mk.injEq] at h
      exact ⟨h.2.symm, parseI64_ok_ne_nil _ _ hp⟩

theorem tokenize_number_length (d : List Char) (n : Number) (rem : List Char)
    (h : tokenize_number d = .ok (n, rem)) : rem.length < d.length := by
  obtain ⟨hrem, hne⟩ := tokenize_number_shape d n rem h
  have happ := scanDigits_append (numberTail d).2
  have hlen := congrArg List.length happ
  simp only [List.length_append] at hlen
  cases hsign : (numberTail d).1 with
  | true =>
    have hd := numberTail_true d hsign
    have hdl := congrArg List.length hd
    simp only [List.length_cons] at hdl
    subst hrem
    omega
  | false =>
    have hd := numberTail_false d hsign
    have hdl : (numberTail d).2.length = d.length := by rw [hd]
    rw [hsign] at hne
    simp only [if_neg Bool.false_ne_true, List.nil_append] at hne
    have hrun : 0 < (scanDigits (numberTail d).2).1.length :=
      List.length_pos.mpr hne
    subst hrem
    omega

theorem take_eq_imp_le {d kw : List Char} {n : Nat} (h : d.take n = kw) :
    kw.length ≤ d.length := by
  have := congrArg List.length h
  simp only [List.length_take] at this
  omega

theorem tokenize_bool_length (d : List Char) (b : Bool) (rem : List Char)
    (h : tokenize_bool d = .ok (b, rem)) : rem.length < d.length := by
  simp only [tokenize_bool] at h
  by_cases h4 : d.take 4 = ['t', 'r', 'u', 'e']
  · have hl := take_eq_imp_le h4
    simp only [List.length_cons, List.length_nil] at hl
    rw [if_pos h4] at h
    simp only [Except.ok.injEq, Prod.mk.injEq] at h
    rw [← h.2]
    simp only [List.length_drop]
    omega
  · rw [if_neg h4] at h
    by_cases h5 : d.take 5 = ['f', 'a', 'l', 's', 'e']
    · have hl := take_eq_imp_le h5
      simp only [List.length_cons, List.length_nil] at hl
      rw [if_pos h5] at h
      simp only [Except.ok.injEq, Prod.mk.injEq] at h
      rw [← h.2]
      simp only [List.length_drop]
      omega
    · rw [if_neg h5] at h
      simp at h

theorem tokenize_null_length (d : List Char) (rem : List Char)
    (h : tokenize_null d = .ok rem) : rem.length < d.length := by
  simp only [tokenize_null] at h
  by_cases h4 : d.take 4 = ['n', 'u', 'l', 'l']
  · have hl := take_eq_imp_le h4
    simp only [List.length_cons, List.length_nil] at hl
    rw [if_pos h4] at h
    simp only [Except.ok.injEq] at h
    rw [← h]
    simp only [List.length_drop]
    omega
  · rw [if_neg h4] at h
    simp at h

theorem tokenizeOne_length (c : Char) (tail : List Char) (t : Token)
    (rem : List Char) (h : tokenizeOne c tail = .ok (t, rem)) :
    rem.length < (c :: tail).length := by
  have punct : ∀ tk : Token, (Except.ok (tk, tail) : Except String (Token × List Char))
      = .ok (t, rem) → rem.length < (c :: tail).length := by
    intro tk hp
    simp only [Except.ok.injEq, Prod.mk.injEq] at hp
    rw [← hp.2]
    simp
  simp only [tokenizeOne] at h
  by_cases h1 : c = '\x7b'
  · rw [if_pos h1] at h; exact punct _ h
  rw [if_neg h1] at h
  by_cases h2 : c = '\x7d'
  · rw [if_pos h2] at h; exact punct _ h
  rw [if_neg h2] at h
  by_cases h3 : c = '['
  · rw [if_pos h3] at h; exact punct _ h
  rw [if_neg h3] at h
  by_cases h4 : c = ']'
  · rw [if_pos h4] at h; exact punct _ h
  rw [if_neg h4] at h
  by_cases h5 : c = ':'
  · rw [if_pos h5] at h; exact punct _ h
  rw [if_neg h5] at h
  by_cases h6 : c = ','
  · rw [if_pos h6] at h; exact punct _ h
  rw [if_neg h6] at h
  by_cases h7 : c = '"'
  · rw [if_pos h7] at h
    cases hs : tokenize_string (c :: tail) with
    | error e => rw [hs] at h; simp at h
    | ok p =>
      obtain ⟨s, rem'⟩ := p
      rw [hs] at h
      simp only [Except.ok.injEq, Prod.mk.injEq] at h
      rw [← h.2]
      exact tokenize_string_length _ _ _ hs
  rw [if_neg h7] at h
  by_cases h8 : c = 't' ∨ c = 'f'
  · rw [if_pos h8] at h
    cases hs : tokenize_bool (c :: tail) with
    | error e => rw [hs] at h; simp at h
    | ok p =>
      obtain ⟨b, rem'⟩ := p
      rw [hs] at h
      simp only [Except.ok.injEq, Prod.mk.injEq] at h
      rw [← h.2]
      exact tokenize_bool_length _ _ _ hs
  rw [if_neg h8] at h
  by_cases h9 : c = 'n'
  · rw [if_pos h9] at h
    cases hs : tokenize_null (c :: tail) with
    | error e => rw [hs] at h; simp at h
    | ok rem' =>
      rw [hs] at h
      simp only [Except.ok.injEq, Prod.mk.injEq] at h
      rw [← h.2]
      exact tokenize_null_length _ _ hs
  rw [if_neg h9] at h
  by_cases h10 : c = '-' ∨ c.isDigit
  · rw [if_pos h10] at h
    cases hs : tokenize_number (c :: tail) with
    | error e => rw [hs] at h; simp at h
    | ok p =>
      obtain ⟨n, rem'⟩ := p
      rw [hs] at h
      simp only [Except.ok.injEq, Prod.mk.injEq] at h
      rw [← h.2]
      exact tokenize_number_length _ _ _ hs
  rw [if_neg h10] at h
  simp at h

theorem parseI64_err (s : List Char) (e : String) (h : parseI64 s = .error e) :
    e ≠ fuelErr := by
  simp only [parseI64] at h
  repeat' split at h
  all_goals try simp only [Except.error.injEq] at h
  all_goals
    first
      | (subst h; decide)
      | simp at h

theorem parseFloat_err (s : List Char) (e : String) (h : parseFloat s = .error e) :
    e ≠ fuelErr := by
  simp only [parseFloat] at h
  repeat' split at h
  all_goals try simp only [Except.error.injEq] at h
  all_goals
    first
      | (subst h; decide)
      | simp at h

theorem tokenize_number_ne_fuelErr (d : List Char) (e : String)
    (h : tokenize_number d = .error e) : e ≠ fuelErr := by
  simp only [tokenize_number] at h
  split at h
  · cases hp : parseFloat ((if (numberTail d).1 then ['-'] else []) ++
        (scanDigits (numberTail d).2).1) with
    | error e' =>
      rw [hp] at h
      simp only [Except.error.injEq] at h
      subst h
      exact parseFloat_err _ _ hp
    | ok v => rw [hp] at h; simp at h
  · cases hp : parseI64 ((if (numberTail d).1 then ['-'] else []) ++
        (scanDigits (numberTail d).2).1) with
    | error e' =>
      rw [hp] at h
      simp only [Except.error.injEq] at h
      subst h
      exact parseI64_err _ _ hp
    | ok v => rw [hp] at h; simp at h

theorem tokenize_bool_err (d : List Char) (e : String)
    (h : tokenize_bool d = .error e) : e = "Invalid boolean" := by
  simp only [tokenize_bool] at h
  split at h
  · simp at h
  · split at h
    · simp at h
    · simp only [Except.error.injEq] at h; exact h.symm

theorem tokenize_null_err (d : List Char) (e : String)
    (h : tokenize_null d = .error e) : e = "Invalid null" := by
  simp only [tokenize_null] at h
  split at h
  · simp at h
  · simp only [Except.error.injEq] at h; exact h.symm

theorem unexpected_ne_fuelErr (c : Char) :
    "Unexpected character: " ++ String.mk [c] ≠ fuelErr := by
  intro h
  have hlen := congrArg String.length h
  rw [String.length_append] at hlen
  have h1 : ("Unexpected character: " : String).length = 22 := rfl
  have h2 : (String.mk [c]).length = 1 := rfl
  have h3 : fuelErr.length = 14 := rfl
  omega

theorem tokenizeOne_ne_fuelErr (c : Char) (tail : List Char) :
    tokenizeOne c tail ≠ .error fuelErr := by
  intro h
  simp only [tokenizeOne] at h
  by_cases h1 : c = '\x7b'
  · rw [if_pos h1] at h; simp at h
  rw [if_neg h1] at h
  by_cases h2 : c = '\x7d'
  · rw [if_pos h2] at h; simp at h
  rw [if_neg h2] at h
  by_cases h3 : c = '['
  · rw [if_pos h3] at h; simp at h
  rw [if_neg h3] at h
  by_cases h4 : c = ']'
  · rw [if_pos h4] at h; simp at h
  rw [if_neg h4] at h
  by_cases h5 : c = ':'
  · rw [if_pos h5] at h; simp at h
  rw [if_neg h5] at h
  by_cases h6 : c = ','
  · rw [if_pos h6] at h; simp at h
  rw [if_neg h6] at h
  by_cases h7 : c = '"'
  · rw [if_pos h7] at h
    cases hs : tokenize_string (c :: tail) with
    | error e =>
      rw [hs] at h
      simp only [Except.error.injEq] at h
      subst h
      exact absurd ((tokenize_string_loop_err _ _ hs).1) (by decide)
    | ok p => obtain ⟨s, rem⟩ := p; rw [hs] at h; simp at h
  rw [if_neg h7] at h
  by_cases h8 : c = 't' ∨ c = 'f'
  · rw [if_pos h8] at h
    cases hs : tokenize_bool (c :: tail) with
    | error e =>
      rw [hs] at h
      simp only [Except.error.injEq] at h
      subst h
      have := tokenize_bool_err _ _ hs
      exact absurd this (by decide)
    | ok p => obtain ⟨b, rem⟩ := p; rw [hs] at h; simp at h
  rw [if_neg h8] at h
  by_cases h9 : c = 'n'
  · rw [if_pos h9] at h
    cases hs : tokenize_null (c :: tail) with
    | error e =>
      rw [hs] at h
      simp only [Except.error.injEq] at h
      subst h
      have := tokenize_null_err _ _ hs
      exact absurd this (by decide)
    | ok rem => rw [hs] at h; simp at h
  rw [if_neg h9] at h
  by_cases h10 : c = '-' ∨ c.isDigit
  · rw [if_pos h10] at h
    cases hs : tokenize_number (c :: tail) with
    | error e =>
      rw [hs] at h
      simp only [Except.error.injEq] at h
      subst h
      exact tokenize_number_ne_fuelErr _ _ hs rfl
    | ok p => obtain ⟨n, rem⟩ := p; rw [hs] at h; simp at h
  rw [if_neg h10] at h
  simp only [Except.error.injEq] at h
  exact unexpected_ne_fuelErr c h

theorem tokenizeAux_irrel (f : Nat) :
    ∀ g d, d.length < f → d.length < g → tokenizeAux f d = tokenizeAux g d := by
  induction f with
  | zero => intro g d h _; omega
  | succ f ih =>
    intro g d hf hg
    cases g with
    | zero => omega
    | succ g =>
      simp only [tokenizeAux]
      cases hskip : skip_whitespace d with
      | nil => rfl
      | cons c tail =>
        cases hone : tokenizeOne c tail with
        | error e => simp only [hone]
        | ok tr =>
          obtain ⟨t, rem⟩ := tr
          have hlen : rem.length < (c :: tail).length :=
            tokenizeOne_length c tail t rem hone
          have hsk : (skip_whitespace d).length ≤ d.length :=
            skip_whitespace_length d
          rw [hskip] at hsk
          simp only [List.length_cons] at hlen hsk
          simp only [hone]
          rw [ih g rem (by omega) (by omega)]

theorem tokenizeAux_ws_prepend (f : Nat) (ws cs : List Char)
    (h : ∀ c ∈ ws, isWhitespaceChar c = true) :
    tokenizeAux f (ws ++ cs) = tokenizeAux f cs := by
  cases f with
  | zero => rfl
  | succ f =>
    simp only [tokenizeAux]
    rw [skip_whitespace_append ws cs h]

theorem tokenize_ws_prepend (ws cs : List Char)
    (h : ∀ c ∈ ws, isWhitespaceChar c = true) :
    tokenize (ws ++ cs) = tokenize cs := by
  unfold tokenize
  rw [tokenizeAux_ws_prepend _ ws cs h]
  exact tokenizeAux_irrel _ _ cs (by simp [List.length_append]; omega) (by omega)

theorem tokenizeAux_ne_fuelErr (f : Nat) :
    ∀ d, d.length < f → tokenizeAux f d ≠ .error fuelErr := by
  induction f with
  | zero => intro d h; omega
  | succ f ih =>
    intro d hf
    simp only [tokenizeAux]
    cases hskip : skip_whitespace d with
    | nil => simp
    | cons c tail =>
      cases hone : tokenizeOne c tail with
      | error e =>
        have hne := tokenizeOne_ne_fuelErr c tail
        rw [hone] at hne
        simp only [hone]
        intro hc
        simp only [Except.error.injEq] at hc
        exact hne (by rw [hc])
      | ok tr =>
        obtain ⟨t, rem⟩ := tr
        have hlen : rem.length < (c :: tail).length :=
          tokenizeOne_length c tail t rem hone
        have hsk : (skip_whitespace d).length ≤ d.length :=
          skip_whitespace_length d
        rw [hskip] at hsk
        simp only [List.length_cons] at hlen hsk
        cases hrec : tokenizeAux f rem with
        | error e =>
          have := ih rem (by omega)
          rw [hrec] at this
          simp only [hone, hrec]
          exact this
        | ok ts => simp only [hone, hrec]; simp

theorem tokenize_ne_fuelErr (d : List Char) : tokenize d ≠ .error fuelErr :=
  tokenizeAux_ne_fuelErr (d.length + 1) d (by omega)

/-! Lemmas about the parser.  Each is proved by induction on the fuel,
with one conjunct per function of the mutual recursion. -/

theorem parse_bounds (f : Nat) :
    (∀ ts pos v p, parse_value f ts pos = .ok (v, p) →
      pos < p ∧ p ≤ ts.length) ∧
    (∀ ts pos v p, parse_json_object f ts pos = .ok (v, p) →
      pos < p ∧ p ≤ ts.length) ∧
    (∀ ts pos v p, parse_json_array f ts pos = .ok (v, p) →
      pos < p ∧ p ≤ ts.length) ∧
    (∀ ts pos obj v p, parse_object_loop f ts pos obj = .ok (v, p) →
      pos < p ∧ p ≤ ts.length) ∧
    (∀ ts pos arr v p, parse_array_loop f ts pos arr = .ok (v, p) →
      pos < p ∧ p ≤ ts.length) := by
  induction f with
  | zero =>
    refine ⟨?_, ?_, ?_, ?_, ?_⟩
    · intro ts pos v p h; simp [parse_value] at h
    · intro ts pos v p h; simp [parse_json_object] at h
    · intro ts pos v p h; simp [parse_json_array] at h
    · intro ts pos obj v p h; simp [parse_object_loop] at h
    · intro ts pos arr v p h; simp [parse_array_loop] at h
  | succ f ih =>
    obtain ⟨ihv, iho, iha, ihol, ihal⟩ := ih
    refine ⟨?_, ?_, ?_, ?_, ?_⟩
    · intro ts pos v p h
      simp only [parse_value] at h
      split at h
      · rename_i hpos
        split at h
        · exact iho ts pos v p h
        · exact iha ts pos v p h
        · simp only [Except.ok.injEq, Prod.mk.injEq] at h
          obtain ⟨-, hp⟩ := h; omega
        · simp only [Except.ok.injEq, Prod.mk.injEq] at h
          obtain ⟨-, hp⟩ := h; omega
        · simp only [Except.ok.injEq, Prod.mk.injEq] at h
          obtain ⟨-, hp⟩ := h; omega
        · simp only [Except.ok.injEq, Prod.mk.injEq] at h
          obtain ⟨-, hp⟩ := h; omega
        · simp at h
      · simp at h
    · intro ts pos v p h
      simp only [parse_json_object] at h
      have := ihol ts (pos + 1) [] v p h
      omega
    · intro ts pos v p h
      simp only [parse_json_array] at h
      have := ihal ts (pos + 1) [] v p h
      omega
    · intro ts pos obj v p h
      simp only [parse_object_loop] at h
      split at h
      · rename_i hpos
        split at h
        · simp only [Except.ok.injEq, Prod.mk.injEq] at h
          obtain ⟨-, hp⟩ := h; omega
        · have := ihol ts (pos + 1) obj v p h
          omega
        · rename_i key hkey
          split at h
          · cases hpv : parse_value f ts (pos + 2) with
            | error e => rw [hpv] at h; simp at h
            | ok r =>
              obtain ⟨v', p'⟩ := r
              rw [hpv] at h
              have h1 := ihv ts (pos + 2) v' p' hpv
              have h2 := ihol ts p' (insertKey obj key v') v p h
              omega
          · simp at h
        · simp at h
      · simp at h
    · intro ts pos arr v p h
      simp only [parse_array_loop] at h
      split at h
      · rename_i hpos
        split at h
        · simp only [Except.ok.injEq, Prod.mk.injEq] at h
          obtain ⟨-, hp⟩ := h; omega
        · have := ihal ts (pos + 1) arr v p h
          omega
        · cases hpv : parse_value f ts pos with
          | error e => rw [hpv] at h; simp at h
          | ok r =>
            obtain ⟨v', p'⟩ := r
            rw [hpv] at h
            have h1 := ihv ts pos v' p' hpv
            have h2 := ihal ts p' (arr ++ [v']) v p h
            omega
      · simp at h

/-! Step equations for the parser at successor fuel, with the inner fuel
kept as a variable so each unfolds exactly one level. -/

theorem parse_value_succ_end (f : Nat) (ts : List Token) (pos : Nat)
    (h : ¬pos < ts.length) :
    parse_value (f + 1) ts pos = .error "Unexpected end of tokens" := by
  simp only [parse_value]
  rw [dif_neg h]

theorem parse_value_succ_brace (f : Nat) (ts : List Token) (pos : Nat)
    (hpos : pos < ts.length) (htok : ts[pos] = Token.LeftBrace) :
    parse_value (f + 1) ts pos = parse_json_object f ts pos := by
  simp only [parse_value]
  rw [dif_pos hpos, htok]

theorem parse_value_succ_bracket (f : Nat) (ts : List Token) (pos : Nat)
    (hpos : pos < ts.length) (htok : ts[pos] = Token.LeftBracket) :
    parse_value (f + 1) ts pos = parse_json_array f ts pos := by
  simp only [parse_value]
  rw [dif_pos hpos, htok]

theorem parse_value_succ_string (f : Nat) (ts : List Token) (pos : Nat)
    (s : List Char) (hpos : pos < ts.length) (htok : ts[pos] = Token.String s) :
    parse_value (f + 1) ts pos = .ok (.String s, pos + 1) := by
  simp only [parse_value]
  rw [dif_pos hpos, htok]

theorem parse_value_succ_number (f : Nat) (ts : List Token) (pos : Nat)
    (n : Number) (hpos : pos < ts.length) (htok : ts[pos] = Token.Number n) :
    parse_value (f + 1) ts pos = .ok (.Number n, pos + 1) := by
  simp only [parse_value]
  rw [dif_pos hpos, htok]

theorem parse_value_succ_bool (f : Nat) (ts : List Token) (pos : Nat)
    (b : Bool) (hpos : pos < ts.length) (htok : ts[pos] = Token.Bool b) :
    parse_value (f + 1) ts pos = .ok (.Bool b, pos + 1) := by
  simp only [parse_value]
  rw [dif_pos hpos, htok]

theorem parse_value_succ_null (f : Nat) (ts : List Token) (pos : Nat)
    (hpos : pos < ts.length) (htok : ts[pos] = Token.Null) :
    parse_value (f + 1) ts pos = .ok (.Null, pos + 1) := by
  simp only [parse_value]
  rw [dif_pos hpos, htok]

theorem parse_value_succ_unexp (f : Nat) (ts : List Token) (pos : Nat)
    (t : Token) (hpos : pos < ts.length) (htok : ts[pos] = t)
    (h1 : t ≠ .LeftBrace) (h2 : t ≠ .LeftBracket)
    (h3 : ∀ s, t ≠ .String s) (h4 : ∀ n, t ≠ .Number n)
    (h5 : ∀ b, t ≠ .Bool b) (h6 : t ≠ .Null) :
    parse_value (f + 1) ts pos =
      .error ("Unexpected token: " ++ tokenDisplay t) := by
  simp only [parse_value]
  rw [dif_pos hpos, htok]
  cases t
  · exact absurd rfl h1
  · exact absurd rfl h2
  · exact absurd rfl (h4 _)
  · rfl
  · rfl
  · exact absurd rfl (h3 _)
  · rfl
  · rfl
  · exact absurd rfl (h5 _)
  · exact absurd rfl h6

theorem parse_json_object_succ (f : Nat) (ts : List Token) (pos : Nat) :
    parse_json_object (f + 1) ts pos = parse_object_loop f ts (pos + 1) [] :=
  rfl

theorem parse_json_array_succ (f : Nat) (ts : List Token) (pos : Nat) :
    parse_json_array (f + 1) ts pos = parse_array_loop f ts (pos + 1) [] :=
  rfl

theorem parse_object_loop_succ_end (f : Nat) (ts : List Token) (pos : Nat)
    (obj : List (List Char × JsonObject)) (h : ¬pos < ts.length) :
    parse_object_loop (f + 1) ts pos obj = .error "Unterminated object" := by
  simp only [parse_object_loop]
  rw [dif_neg h]

theorem parse_object_loop_succ_rbrace (f : Nat) (ts : List Token) (pos : Nat)
    (obj : List (List Char × JsonObject)) (hpos : pos < ts.length)
    (htok : ts[pos] = Token.RightBrace) :
    parse_object_loop (f + 1) ts pos obj = .ok (.Object obj, pos + 1) := by
  simp only [parse_object_loop]
  rw [dif_pos hpos, htok]

theorem parse_object_loop_succ_comma (f : Nat) (ts : List Token) (pos : Nat)
    (obj : List (List Char × JsonObject)) (hpos : pos < ts.length)
    (htok : ts[pos] = Token.Comma) :
    parse_object_loop (f + 1) ts pos obj = parse_object_loop f ts (pos + 1) obj := by
  simp only [parse_object_loop]
  rw [dif_pos hpos, htok]

theorem parse_object_loop_succ_key (f : Nat) (ts : List Token) (pos : Nat)
    (obj : List (List Char × JsonObject)) (key : List Char)
    (hpos : pos < ts.length) (htok : ts[pos] = Token.String key)
    (hcol : ts[pos + 1]? = some Token.Colon) :
    parse_object_loop (f + 1) ts pos obj =
      match parse_value f ts (pos + 2) with
      | .ok (v, p) => parse_object_loop f ts p (insertKey obj key v)
      | .error e => .error e := by
  simp only [parse_object_loop]
  rw [dif_pos hpos, htok, hcol]

theorem parse_object_loop_succ_nocolon (f : Nat) (ts : List Token) (pos : Nat)
    (obj : List (List Char × JsonObject)) (key : List Char)
    (hpos : pos < ts.length) (htok : ts[pos] = Token.String key)
    (hcol : ts[pos + 1]? ≠ some Token.Colon) :
    parse_object_loop (f + 1) ts pos obj = .error "Expected colon after key" := by
  simp only [parse_object_loop]
  rw [dif_pos hpos, htok]

theorem parse_object_loop_succ_bad (f : Nat) (ts : List Token) (pos : Nat)
    (obj : List (List Char × JsonObject)) (t : Token)
    (hpos : pos < ts.length) (htok : ts[pos] = t)
    (h1 : t ≠ .RightBrace) (h2 : t ≠ .Comma) (h3 : ∀ key, t ≠ .String key) :
    parse_object_loop (f + 1) ts pos obj =
      .error "Expected string key in object" := by
  simp only [parse_object_loop]
  rw [dif_pos hpos, htok]
  cases t
  all_goals first
    | rfl
    | exact absurd rfl h1
    | exact absurd rfl h2
    | exact absurd rfl (h3 _)

theorem parse_array_loop_succ_end (f : Nat) (ts : List Token) (pos : Nat)
    (arr : List JsonObject) (h : ¬pos < ts.length) :
    parse_array_loop (f + 1) ts pos arr = .error "Unterminated array" := by
  simp only [parse_array_loop]
  rw [dif_neg h]

theorem parse_array_loop_succ_rbracket (f : Nat) (ts : List Token) (pos : Nat)
    (arr : List JsonObject) (hpos : pos < ts.length)
    (htok : ts[pos] = Token.RightBracket) :
    parse_array_loop (f + 1) ts pos arr = .ok (.Array arr, pos + 1) := by
  simp only [parse_array_loop]
  rw [dif_pos hpos, htok]

theorem parse_array_loop_succ_comma (f : Nat) (ts : List Token) (pos : Nat)
    (arr : List JsonObject) (hpos : pos < ts.length)
    (htok : ts[pos] = Token.Comma) :
    parse_array_loop (f + 1) ts pos arr = parse_array_loop f ts (pos + 1) arr := by
  simp only [parse_array_loop]
  rw [dif_pos hpos, htok]

theorem parse_array_loop_succ_value (f : Nat) (ts : List Token) (pos : Nat)
    (arr : List JsonObject) (t : Token) (hpos : pos < ts.length)
    (htok : ts[pos] = t) (h1 : t ≠ .RightBracket) (h2 : t ≠ .Comma) :
    parse_array_loop (f + 1) ts pos arr =
      match parse_value f ts pos with
      | .ok (v, p) => parse_array_loop f ts p (arr ++ [v])
      | .error e => .error e := by
  simp only [parse_array_loop]
  rw [dif_pos hpos, htok]
  cases t
  all_goals first
    | rfl
    | exact absurd rfl h1
    | exact absurd rfl h2

theorem parse_mono (f : Nat) :
    (∀ ts pos r, parse_value f ts pos = .ok r →
      parse_value (f + 1) ts pos = .ok r) ∧
    (∀ ts pos r, parse_json_object f ts pos = .ok r →
      parse_json_object (f + 1) ts pos = .ok r) ∧
    (∀ ts pos r, parse_json_array f ts pos = .ok r →
      parse_json_array (f + 1) ts pos = .ok r) ∧
    (∀ ts pos obj r, parse_object_loop f ts pos obj = .ok r →
      parse_object_loop (f + 1) ts pos obj = .ok r) ∧
    (∀ ts pos arr r, parse_array_loop f ts pos arr = .ok r →
      parse_array_loop (f + 1) ts pos arr = .ok r) := by
  induction f with
  | zero =>
    refine ⟨?_, ?_, ?_, ?_, ?_⟩
    · intro ts pos r h; simp [parse_value] at h
    · intro ts pos r h; simp [parse_json_object] at h
    · intro ts pos r h; simp [parse_json_array] at h
    · intro ts pos obj r h; simp [parse_object_loop] at h
    · intro ts pos arr r h; simp [parse_array_loop] at h
  | succ f ih =>
    obtain ⟨ihv, iho, iha, ihol, ihal⟩ := ih
    refine ⟨?_, ?_, ?_, ?_, ?_⟩
    · intro ts pos r h
      by_cases hpos : pos < ts.length
      · cases htok : ts[pos] with
        | LeftBrace =>
          rw [parse_value_succ_brace f ts pos hpos htok] at h
          rw [parse_value_succ_brace (f + 1) ts pos hpos htok]
          exact iho ts pos r h
        | LeftBracket =>
          rw [parse_value_succ_bracket f ts pos hpos htok] at h
          rw [parse_value_succ_bracket (f + 1) ts pos hpos htok]
          exact iha ts pos r h
        | String s =>
          rw [parse_value_succ_string f ts pos s hpos htok] at h
          rw [parse_value_succ_string (f + 1) ts pos s hpos htok]
          exact h
        | Number n =>
          rw [parse_value_succ_number f ts pos n hpos htok] at h
          rw [parse_value_succ_number (f + 1) ts pos n hpos htok]
          exact h
        | Bool b =>
          rw [parse_value_succ_bool f ts pos b hpos htok] at h
          rw [parse_value_succ_bool (f + 1) ts pos b hpos htok]
          exact h
        | Null =>
          rw [parse_value_succ_null f ts pos hpos htok] at h
          rw [parse_value_succ_null (f + 1) ts pos hpos htok]
          exact h
        | RightBrace =>
          rw [parse_value_succ_unexp f ts pos _ hpos htok (by simp) (by simp)
            (by simp) (by simp) (by simp) (by simp)] at h
          simp at h
        | RightBracket =>
          rw [parse_value_succ_unexp f ts pos _ hpos htok (by simp) (by simp)
            (by simp) (by simp) (by simp) (by simp)] at h
          simp at h
        | Colon =>
          rw [parse_value_succ_unexp f ts pos _ hpos htok (by simp) (by simp)
            (by simp) (by simp) (by simp) (by simp)] at h
          simp at h
        | Comma =>
          rw [parse_value_succ_unexp f ts pos _ hpos htok (by simp) (by simp)
            (by simp) (by simp) (by simp) (by simp)] at h
          simp at h
      · rw [parse_value_succ_end f ts pos hpos] at h
        simp at h
    · intro ts pos r h
      rw [parse_json_object_succ] at h
      rw [parse_json_object_succ]
      exact ihol ts (pos + 1) [] r h
    · intro ts pos r h
      rw [parse_json_array_succ] at h
      rw [parse_json_array_succ]
      exact ihal ts (pos + 1) [] r h
    · intro ts pos obj r h
      by_cases hpos : pos < ts.length
      · cases htok : ts[pos] with
        | RightBrace =>
          rw [parse_object_loop_succ_rbrace f ts pos obj hpos htok] at h
          rw [parse_object_loop_succ_rbrace (f + 1) ts pos obj hpos htok]
          exact h
        | Comma =>
          rw [parse_object_loop_succ_comma f ts pos obj hpos htok] at h
          rw [parse_object_loop_succ_comma (f + 1) ts pos obj hpos htok]
          exact ihol ts (pos + 1) obj r h
        | String key =>
          by_cases hcol : ts[pos + 1]? = some Token.Colon
          · rw [parse_object_loop_succ_key f ts pos obj key hpos htok hcol] at h
            rw [parse_object_loop_succ_key (f + 1) ts pos obj key hpos htok hcol]
            cases hpv : parse_value f ts (pos + 2) with
            | error e => rw [hpv] at h; simp at h
            | ok r' =>
              obtain ⟨v', p'⟩ := r'
              rw [hpv] at h
              rw [ihv ts (pos + 2) (v', p') hpv]
              exact ihol ts p' (insertKey obj key v') r h
          · rw [parse_object_loop_succ_nocolon f ts pos obj key hpos htok hcol] at h
            simp at h
        | LeftBrace =>
          rw [parse_object_loop_succ_bad f ts pos obj _ hpos htok (by simp)
            (by simp) (by simp)] at h
          simp at h
        | LeftBracket =>
          rw [parse_object_loop_succ_bad f ts pos obj _ hpos htok (by simp)
            (by simp) (by simp)] at h
          simp at h
        | Number n =>
          rw [parse_object_loop_succ_bad f ts pos obj _ hpos htok (by simp)
            (by simp) (by simp)] at h
          simp at h
        | RightBracket =>
          rw [parse_object_loop_succ_bad f ts pos obj _ hpos htok (by simp)
            (by simp) (by simp)] at h
          simp at h
        | Colon =>
          rw [parse_object_loop_succ_bad f ts pos obj _ hpos htok (by simp)
            (by simp) (by simp)] at h
          simp at h
        | Bool b =>
          rw [parse_object_loop_succ_bad f ts pos obj _ hpos htok (by simp)
            (by simp) (by simp)] at h
          simp at h
        | Null =>
          rw [parse_object_loop_succ_bad f ts pos obj _ hpos htok (by simp)
            (by simp) (by simp)] at h
          simp at h
      · rw [parse_object_loop_succ_end f ts pos obj hpos] at h
        simp at h
    · intro ts pos arr r h
      by_cases hpos : pos < ts.length
      · cases htok : ts[pos] with
        | RightBracket =>
          rw [parse_array_loop_succ_rbracket f ts pos arr hpos htok] at h
          rw [parse_array_loop_succ_rbracket (f + 1) ts pos arr hpos htok]
          exact h
        | Comma =>
          rw [parse_array_loop_succ_comma f ts pos arr hpos htok] at h
          rw [parse_array_loop_succ_comma (f + 1) ts pos arr hpos htok]
          exact ihal ts (pos + 1) arr r h
        | LeftBrace =>
          rw [parse_array_loop_succ_value f ts pos arr _ hpos htok (by simp)
            (by simp)] at h
          rw [parse_array_loop_succ_value (f + 1) ts pos arr _ hpos htok
            (by simp) (by simp)]
          cases hpv : parse_value f ts pos with
          | error e => rw [hpv] at h; simp at h
          | ok r' =>
            obtain ⟨v', p'⟩ := r'
            rw [hpv] at h
            rw [ihv ts pos (v', p') hpv]
            exact ihal ts p' (arr ++ [v']) r h
        | LeftBracket =>
          rw [parse_array_loop_succ_value f ts pos arr _ hpos htok (by simp)
            (by simp)] at h
          rw [parse_array_loop_succ_value (f + 1) ts pos arr _ hpos htok
            (by simp) (by simp)]
          cases hpv : parse_value f ts pos with
          | error e => rw [hpv] at h; simp at h
          | ok r' =>
            obtain ⟨v', p'⟩ := r'
            rw [hpv] at h
            rw [ihv ts pos (v', p') hpv]
            exact ihal ts p' (arr ++ [v']) r h
        | String s =>
          rw [parse_array_loop_succ_value f ts pos arr _ hpos htok (by simp)
            (by simp)] at h
          rw [parse_array_loop_succ_value (f + 1) ts pos arr _ hpos htok
            (by simp) (by simp)]
          cases hpv : parse_value f ts pos with
          | error e => rw [hpv] at h; simp at h
          | ok r' =>
            obtain ⟨v', p'⟩ := r'
            rw [hpv] at h
            rw [ihv ts pos (v', p') hpv]
            exact ihal ts p' (arr ++ [v']) r h
        | Number n =>
          rw [parse_array_loop_succ_value f ts pos arr _ hpos htok (by simp)
            (by simp)] at h
          rw [parse_array_loop_succ_value (f + 1) ts pos arr _ hpos htok
            (by simp) (by simp)]
          cases hpv : parse_value f ts pos with
          | error e => rw [hpv] at h; simp at h
          | ok r' =>
            obtain ⟨v', p'⟩ := r'
            rw [hpv] at h
            rw [ihv ts pos (v', p') hpv]
            exact ihal ts p' (arr ++ [v']) r h
        | Bool b =>
          rw [parse_array_loop_succ_value f ts pos arr _ hpos htok (by simp)
            (by simp)] at h
          rw [parse_array_loop_succ_value (f + 1) ts pos arr _ hpos htok
            (by simp) (by simp)]
          cases hpv : parse_value f ts pos with
          | error e => rw [hpv] at h; simp at h
          | ok r' =>
            obtain ⟨v', p'⟩ := r'
            rw [hpv] at h
            rw [ihv ts pos (v', p') hpv]
            exact ihal ts p' (arr ++ [v']) r h
        | Null =>
          rw [parse_array_loop_succ_value f ts pos arr _ hpos htok (by simp)
            (by simp)] at h
          rw [parse_array_loop_succ_value (f + 1) ts pos arr _ hpos htok
            (by simp) (by simp)]
          cases hpv : parse_value f ts pos with
          | error e => rw [hpv] at h; simp at h
          | ok r' =>
            obtain ⟨v', p'⟩ := r'
            rw [hpv] at h
            rw [ihv ts pos (v', p') hpv]
            exact ihal ts p' (arr ++ [v']) r h
        | Colon =>
          rw [parse_array_loop_succ_value f ts pos arr _ hpos htok (by simp)
            (by simp)] at h
          rw [parse_array_loop_succ_value (f + 1) ts pos arr _ hpos htok
            (by simp) (by simp)]
          cases hpv : parse_value f ts pos with
          | error e => rw [hpv] at h; simp at h
          | ok r' =>
            obtain ⟨v', p'⟩ := r'
            rw [hpv] at h
            rw [ihv ts pos (v', p') hpv]
            exact ihal ts p' (arr ++ [v']) r h
        | RightBrace =>
          rw [parse_array_loop_succ_value f ts pos arr _ hpos htok (by simp)
            (by simp)] at h
          rw [parse_array_loop_succ_value (f + 1) ts pos arr _ hpos htok
            (by simp) (by simp)]
          cases hpv : parse_value f ts pos with
          | error e => rw [hpv] at h; simp at h
          | ok r' =>
            obtain ⟨v', p'⟩ := r'
            rw [hpv] at h
            rw [ihv ts pos (v', p') hpv]
            exact ihal ts p' (arr ++ [v']) r h
      · rw [parse_array_loop_succ_end f ts pos arr hpos] at h
        simp at h

theorem parse_value_mono_le (ts : List Token) (pos : Nat) (r : JsonObject × Nat)
    (f : Nat) (h : parse_value f ts pos = .ok r) :
    ∀ g, f ≤ g → parse_value g ts pos = .ok r := by
  intro g
  induction g with
  | zero =>
    intro hg
    have hf : f = 0 := by omega
    subst hf
    exact h
  | succ g ih =>
    intro hg
    by_cases hfg : f = g + 1
    · subst hfg; exact h
    · exact (parse_mono g).1 ts pos r (ih (by omega))

theorem parse_ext (f : Nat) :
    (∀ ts ex pos r, parse_value f ts pos = .ok r →
      parse_value f (ts ++ ex) pos = .ok r) ∧
    (∀ ts ex pos r, parse_json_object f ts pos = .ok r →
      parse_json_object f (ts ++ ex) pos = .ok r) ∧
    (∀ ts ex pos r, parse_json_array f ts pos = .ok r →
      parse_json_array f (ts ++ ex) pos = .ok r) ∧
    (∀ ts ex pos obj r, parse_object_loop f ts pos obj = .ok r →
      parse_object_loop f (ts ++ ex) pos obj = .ok r) ∧
    (∀ ts ex pos arr r, parse_array_loop f ts pos arr = .ok r →
      parse_array_loop f (ts ++ ex) pos arr = .ok r) := by
  induction f with
  | zero =>
    refine ⟨?_, ?_, ?_, ?_, ?_⟩
    · intro ts ex pos r h; simp [parse_value] at h
    · intro ts ex pos r h; simp [parse_json_object] at h
    · intro ts ex pos r h; simp [parse_json_array] at h
    · intro ts ex pos obj r h; simp [parse_object_loop] at h
    · intro ts ex pos arr r h; simp [parse_array_loop] at h
  | succ f ih =>
    obtain ⟨ihv, iho, iha, ihol, ihal⟩ := ih
    refine ⟨?_, ?_, ?_, ?_, ?_⟩
    · intro ts ex pos r h
      by_cases hpos : pos < ts.length
      · have hpos2 : pos < (ts ++ ex).length := by
          rw [List.length_append]; omega
        have hget : (ts ++ ex)[pos] = ts[pos] := List.getElem_append_left hpos
        by_cases h1 : ts[pos] = Token.LeftBrace
        · rw [parse_value_succ_brace f ts pos hpos h1] at h
          rw [parse_value_succ_brace f (ts ++ ex) pos hpos2 (by rw [hget, h1])]
          exact iho ts ex pos r h
        by_cases h2 : ts[pos] = Token.LeftBracket
        · rw [parse_value_succ_bracket f ts pos hpos h2] at h
          rw [parse_value_succ_bracket f (ts ++ ex) pos hpos2 (by rw [hget, h2])]
          exact iha ts ex pos r h
        by_cases h3 : ∃ s, ts[pos] = Token.String s
        · obtain ⟨s, hs⟩ := h3
          rw [parse_value_succ_string f ts pos s hpos hs] at h
          rw [parse_value_succ_string f (ts ++ ex) pos s hpos2 (by rw [hget, hs])]
          exact h
        by_cases h4 : ∃ n, ts[pos] = Token.Number n
        · obtain ⟨n, hn⟩ := h4
          rw [parse_value_succ_number f ts pos n hpos hn] at h
          rw [parse_value_succ_number f (ts ++ ex) pos n hpos2 (by rw [hget, hn])]
          exact h
        by_cases h5 : ∃ b, ts[pos] = Token.Bool b
        · obtain ⟨b, hb⟩ := h5
          rw [parse_value_succ_bool f ts pos b hpos hb] at h
          rw [parse_value_succ_bool f (ts ++ ex) pos b hpos2 (by rw [hget, hb])]
          exact h
        by_cases h6 : ts[pos] = Token.Null
        · rw [parse_value_succ_null f ts pos hpos h6] at h
          rw [parse_value_succ_null f (ts ++ ex) pos hpos2 (by rw [hget, h6])]
          exact h
        rw [parse_value_succ_unexp f ts pos ts[pos] hpos rfl h1 h2
          (by push_neg at h3; exact h3) (by push_neg at h4; exact h4)
          (by push_neg at h5; exact h5) h6] at h
        simp at h
      · rw [parse_value_succ_end f ts pos hpos] at h
        simp at h
    · intro ts ex pos r h
      rw [parse_json_object_succ] at h
      rw [parse_json_object_succ]
      exact ihol ts ex (pos + 1) [] r h
    · intro ts ex pos r h
      rw [parse_json_array_succ] at h
      rw [parse_json_array_succ]
      exact ihal ts ex (pos + 1) [] r h
    · intro ts ex pos obj r h
      by_cases hpos : pos < ts.length
      · have hpos2 : pos < (ts ++ ex).length := by
          rw [List.length_append]; omega
        have hget : (ts ++ ex)[pos] = ts[pos] := List.getElem_append_left hpos
        by_cases h1 : ts[pos] = Token.RightBrace
        · rw [parse_object_loop_succ_rbrace f ts pos obj hpos h1] at h
          rw [parse_object_loop_succ_rbrace f (ts ++ ex) pos obj hpos2
            (by rw [hget, h1])]
          exact h
        by_cases h2 : ts[pos] = Token.Comma
        · rw [parse_object_loop_succ_comma f ts pos obj hpos h2] at h
          rw [parse_object_loop_succ_comma f (ts ++ ex) pos obj hpos2
            (by rw [hget, h2])]
          exact ihol ts ex (pos + 1) obj r h
        by_cases h3 : ∃ key, ts[pos] = Token.String key
        · obtain ⟨key, hk⟩ := h3
          by_cases hcol : ts[pos + 1]? = some Token.Colon
          · have hlt : pos + 1 < ts.length := by
              by_contra hc
              rw [List.getElem?_eq_none (by omega)] at hcol
              simp at hcol
            have hcol2 : (ts ++ ex)[pos + 1]? = some Token.Colon := by
              rw [List.getElem?_append_left hlt]; exact hcol
            rw [parse_object_loop_succ_key f ts pos obj key hpos hk hcol] at h
            rw [parse_object_loop_succ_key f (ts ++ ex) pos obj key hpos2
              (by rw [hget, hk]) hcol2]
            cases hpv : parse_value f ts (pos + 2) with
            | error e => rw [hpv] at h; simp at h
            | ok r' =>
              obtain ⟨v', p'⟩ := r'
              rw [hpv] at h
              rw [ihv ts ex (pos + 2) (v', p') hpv]
              exact ihol ts ex p' (insertKey obj key v') r h
          · rw [parse_object_loop_succ_nocolon f ts pos obj key hpos hk hcol] at h
            simp at h
        rw [parse_object_loop_succ_bad f ts pos obj ts[pos] hpos rfl h1 h2
          (by push_neg at h3; exact h3)] at h
        simp at h
      · rw [parse_object_loop_succ_end f ts pos obj hpos] at h
        simp at h
    · intro ts ex pos arr r h
      by_cases hpos : pos < ts.length
      · have hpos2 : pos < (ts ++ ex).length := by
          rw [List.length_append]; omega
        have hget : (ts ++ ex)[pos] = ts[pos] := List.getElem_append_left hpos
        by_cases h1 : ts[pos] = Token.RightBracket
        · rw [parse_array_loop_succ_rbracket f ts pos arr hpos h1] at h
          rw [parse_array_loop_succ_rbracket f (ts ++ ex) pos arr hpos2
            (by rw [hget, h1])]
          exact h
        by_cases h2 : ts[pos] = Token.Comma
        · rw [parse_array_loop_succ_comma f ts pos arr hpos h2] at h
          rw [parse_array_loop_succ_comma f (ts ++ ex) pos arr hpos2
            (by rw [hget, h2])]
          exact ihal ts ex (pos + 1) arr r h
        rw [parse_array_loop_succ_value f ts pos arr ts[pos] hpos rfl h1 h2] at h
        rw [parse_array_loop_succ_value f (ts ++ ex) pos arr ts[pos] hpos2
          hget h1 h2]
        cases hpv : parse_value f ts pos with
        | error e => rw [hpv] at h; simp at h
        | ok r' =>
          obtain ⟨v', p'⟩ := r'
          rw [hpv] at h
          rw [ihv ts ex pos (v', p') hpv]
          exact ihal ts ex p' (arr ++ [v']) r h
      · rw [parse_array_loop_succ_end f ts pos arr hpos] at h
        simp at h

theorem unexpected_token_ne_fuelErr (t : Token) :
    "Unexpected token: " ++ tokenDisplay t ≠ fuelErr := by
  intro h
  have hlen := congrArg String.length h
  rw [String.length_append] at hlen
  have h1 : ("Unexpected token: " : String).length = 18 := rfl
  have h3 : fuelErr.length = 14 := rfl
  omega

theorem error_ne_of_msg {α : Type} {e1 e2 : String} (h : e1 ≠ e2) :
    (Except.error e1 : Except String α) ≠ .error e2 :=
  fun hc => h (Except.error.inj hc)

theorem parse_fuel_ok (f : Nat) :
    (∀ ts pos, 3 * (ts.length - pos) + 1 ≤ f →
      parse_value f ts pos ≠ .error fuelErr) ∧
    (∀ ts pos, pos < ts.length → 3 * (ts.length - pos) ≤ f →
      parse_json_object f ts pos ≠ .error fuelErr) ∧
    (∀ ts pos, pos < ts.length → 3 * (ts.length - pos) ≤ f →
      parse_json_array f ts pos ≠ .error fuelErr) ∧
    (∀ ts pos obj, 3 * (ts.length - pos) + 2 ≤ f →
      parse_object_loop f ts pos obj ≠ .error fuelErr) ∧
    (∀ ts pos arr, 3 * (ts.length - pos) + 2 ≤ f →
      parse_array_loop f ts pos arr ≠ .error fuelErr) := by
  induction f with
  | zero =>
    refine ⟨?_, ?_, ?_, ?_, ?_⟩
    · intro ts pos hf; omega
    · intro ts pos hpos hf; omega
    · intro ts pos hpos hf; omega
    · intro ts pos obj hf; omega
    · intro ts pos arr hf; omega
  | succ f ih =>
    obtain ⟨ihv, iho, iha, ihol, ihal⟩ := ih
    refine ⟨?_, ?_, ?_, ?_, ?_⟩
    · intro ts pos hf
      by_cases hpos : pos < ts.length
      · by_cases h1 : ts[pos] = Token.LeftBrace
        · rw [parse_value_succ_brace f ts pos hpos h1]
          exact iho ts pos hpos (by omega)
        by_cases h2 : ts[pos] = Token.LeftBracket
        · rw [parse_value_succ_bracket f ts pos hpos h2]
          exact iha ts pos hpos (by omega)
        by_cases h3 : ∃ s, ts[pos] = Token.String s
        · obtain ⟨s, hs⟩ := h3
          rw [parse_value_succ_string f ts pos s hpos hs]
          simp
        by_cases h4 : ∃ n, ts[pos] = Token.Number n
        · obtain ⟨n, hn⟩ := h4
          rw [parse_value_succ_number f ts pos n hpos hn]
          simp
        by_cases h5 : ∃ b, ts[pos] = Token.Bool b
        · obtain ⟨b, hb⟩ := h5
          rw [parse_value_succ_bool f ts pos b hpos hb]
          simp
        by_cases h6 : ts[pos] = Token.Null
        · rw [parse_value_succ_null f ts pos hpos h6]
          simp
        rw [parse_value_succ_unexp f ts pos ts[pos] hpos rfl h1 h2
          (by push_neg at h3; exact h3) (by push_neg at h4; exact h4)
          (by push_neg at h5; exact h5) h6]
        exact error_ne_of_msg (unexpected_token_ne_fuelErr _)
      · rw [parse_value_succ_end f ts pos hpos]
        exact error_ne_of_msg (by decide)
    · intro ts pos hpos hf
      rw [parse_json_object_succ]
      exact ihol ts (pos + 1) [] (by omega)
    · intro ts pos hpos hf
      rw [parse_json_array_succ]
      exact ihal ts (pos + 1) [] (by omega)
    · intro ts pos obj hf
      by_cases hpos : pos < ts.length
      · by_cases h1 : ts[pos] = Token.RightBrace
        · rw [parse_object_loop_succ_rbrace f ts pos obj hpos h1]
          simp
        by_cases h2 : ts[pos] = Token.Comma
        · rw [parse_object_loop_succ_comma f ts pos obj hpos h2]
          exact ihol ts (pos + 1) obj (by omega)
        by_cases h3 : ∃ key, ts[pos] = Token.String key
        · obtain ⟨key, hk⟩ := h3
          by_cases hcol : ts[pos + 1]? = some Token.Colon
          · rw [parse_object_loop_succ_key f ts pos obj key hpos hk hcol]
            cases hpv : parse_value f ts (pos + 2) with
            | error e =>
              have := ihv ts (pos + 2) (by omega)
              rw [hpv] at this
              exact this
            | ok r' =>
              obtain ⟨v', p'⟩ := r'
              have hb := (parse_bounds f).1 ts (pos + 2) v' p' hpv
              show parse_object_loop f ts p' (insertKey obj key v') ≠
                .error fuelErr
              exact ihol ts p' (insertKey obj key v') (by omega)
          · rw [parse_object_loop_succ_nocolon f ts pos obj key hpos hk hcol]
            exact error_ne_of_msg (by decide)
        rw [parse_object_loop_succ_bad f ts pos obj ts[pos] hpos rfl h1 h2
          (by push_neg at h3; exact h3)]
        exact error_ne_of_msg (by decide)
      · rw [parse_object_loop_succ_end f ts pos obj hpos]
        exact error_ne_of_msg (by decide)
    · intro ts pos arr hf
      by_cases hpos : pos < ts.length
      · by_cases h1 : ts[pos] = Token.RightBracket
        · rw [parse_array_loop_succ_rbracket f ts pos arr hpos h1]
          simp
        by_cases h2 : ts[pos] = Token.Comma
        · rw [parse_array_loop_succ_comma f ts pos arr hpos h2]
          exact ihal ts (pos + 1) arr (by omega)
        rw [parse_array_loop_succ_value f ts pos arr ts[pos] hpos rfl h1 h2]
        cases hpv : parse_value f ts pos with
        | error e =>
          have := ihv ts pos (by omega)
          rw [hpv] at this
          exact this
        | ok r' =>
          obtain ⟨v', p'⟩ := r'
          have hb := (parse_bounds f).1 ts pos v' p' hpv
          show parse_array_loop f ts p' (arr ++ [v']) ≠ .error fuelErr
          exact ihal ts p' (arr ++ [v']) (by omega)
      · rw [parse_array_loop_succ_end f ts pos arr hpos]
        exact error_ne_of_msg (by decide)

/-! Lemmas about the association-list model of the object map. -/

theorem insertKey_cons_same (k : List Char) (w v : JsonObject)
    (rest : List (List Char × JsonObject)) :
    insertKey ((k, w) :: rest) k v = (k, v) :: rest := by
  simp [insertKey]

theorem insertKey_cons_diff (k key : List Char) (w v : JsonObject)
    (rest : List (List Char × JsonObject)) (hk : k ≠ key) :
    insertKey ((k, w) :: rest) key v = (k, w) :: insertKey rest key v := by
  simp [insertKey, hk]

theorem lookupKey_insertKey (obj : List (List Char × JsonObject))
    (key : List Char) (v : JsonObject) :
    lookupKey (insertKey obj key v) key = some v := by
  induction obj with
  | nil => simp [insertKey, lookupKey]
  | cons kv rest ih =>
    obtain ⟨k, w⟩ := kv
    by_cases hk : k = key
    · subst hk
      rw [insertKey_cons_same]
      simp [lookupKey]
    · rw [insertKey_cons_diff k key w v rest hk]
      simp [lookupKey, hk, ih]

theorem mem_keys_insertKey (obj : List (List Char × JsonObject))
    (key a : List Char) (v : JsonObject) :
    a ∈ (insertKey obj key v).map Prod.fst ↔
      a = key ∨ a ∈ obj.map Prod.fst := by
  induction obj with
  | nil => simp [insertKey]
  | cons kv rest ih =>
    obtain ⟨k, w⟩ := kv
    by_cases hk : k = key
    · subst hk
      rw [insertKey_cons_same]
      simp
      try tauto
    · rw [insertKey_cons_diff k key w v rest hk]
      simp [ih]
      tauto

theorem keysNodup_insertKey (obj : List (List Char × JsonObject))
    (key : List Char) (v : JsonObject) (h : keysNodup obj) :
    keysNodup (insertKey obj key v) := by
  induction obj with
  | nil => simp [insertKey, keysNodup]
  | cons kv rest ih =>
    obtain ⟨k, w⟩ := kv
    simp only [keysNodup, List.map_cons, List.nodup_cons] at h
    obtain ⟨hnotin, hrest⟩ := h
    by_cases hk : k = key
    · subst hk
      rw [insertKey_cons_same]
      simp only [keysNodup, List.map_cons, List.nodup_cons]
      exact ⟨hnotin, hrest⟩
    · rw [insertKey_cons_diff k key w v rest hk]
      simp only [keysNodup, List.map_cons, List.nodup_cons]
      refine ⟨?_, ih hrest⟩
      intro hmem
      rcases (mem_keys_insertKey rest key k v).mp hmem with h1 | h1
      · exact hk h1
      · exact hnotin h1

theorem countKey_eq_zero (obj : List (List Char × JsonObject))
    (key : List Char) (h : key ∉ obj.map Prod.fst) :
    countKey obj key = 0 := by
  induction obj with
  | nil => simp [countKey]
  | cons kv rest ih =>
    obtain ⟨k, w⟩ := kv
    simp only [List.map_cons, List.mem_cons] at h
    push_neg at h
    simp only [countKey]
    rw [if_neg (Ne.symm h.1), ih h.2]

theorem countKey_insertKey (obj : List (List Char × JsonObject))
    (key : List Char) (v : JsonObject) (h : keysNodup obj) :
    countKey (insertKey obj key v) key = 1 := by
  induction obj with
  | nil => simp [insertKey, countKey]
  | cons kv rest ih =>
    obtain ⟨k, w⟩ := kv
    simp only [keysNodup, List.map_cons, List.nodup_cons] at h
    obtain ⟨hnotin, hrest⟩ := h
    by_cases hk : k = key
    · subst hk
      rw [insertKey_cons_same]
      simp only [countKey, if_true]
      rw [countKey_eq_zero rest k hnotin]
    · rw [insertKey_cons_diff k key w v rest hk]
      simp only [countKey]
      rw [if_neg hk, ih hrest]

/-! Claim theorems. -/

/-- Claim C1, counterexample: on the input `"a\"b"` the string scanner
stops at the first quote even though it is preceded by a backslash — the
scanned contents are `a\` and the rest of the input starts at `b`, so
tokenizing the whole input fails on the leftover `b` instead of
producing the single token `String(a\"b)` that the claim predicts. -/
theorem c1_counterexample :
    tokenize_string ['"', 'a', '\\', '"', 'b', '"']
        = .ok (['a', '\\'], ['b', '"']) ∧
    tokenize ['"', 'a', '\\', '"', 'b', '"']
        = .error "Unexpected character: b" :=
  ⟨rfl, rfl⟩

/-- Claim C1, amended: string scanning copies characters verbatim (a
backslash is kept as-is, no escape interpretation) and the string token
ends at the first closing quote, whether or not that quote is preceded
by a backslash: scanning succeeds with contents `s` and rest `rem`
exactly when the input after the opening quote is `s ++ '"' :: rem` with
no quote inside `s`, and it fails with "Unterminated string" exactly
when no quote occurs at all. -/
theorem c1_string_verbatim (data s rem : List Char) :
    (tokenize_string data = .ok (s, rem) ↔
      data.drop 1 = s ++ '"' :: rem ∧ '"' ∉ s) ∧
    (tokenize_string data = .error "Unterminated string" ↔
      '"' ∉ data.drop 1) := by
  constructor
  · constructor
    · intro h
      exact tokenize_string_loop_decompose _ s rem h
    · rintro ⟨hd, hn⟩
      unfold tokenize_string
      rw [hd]
      exact tokenize_string_loop_build s rem hn
  · constructor
    · intro h
      exact (tokenize_string_loop_err _ _ h).2
    · intro h
      exact tokenize_string_loop_no_quote _ h

/-- Claim C1, amended, witness at the input `"ab"`. -/
theorem c1_string_verbatim_witness :
    tokenize_string ['"', 'a', 'b', '"'] = .ok (['a', 'b'], []) :=
  ((c1_string_verbatim ['"', 'a', 'b', '"'] ['a', 'b'] []).1).mpr
    ⟨rfl, by decide⟩

/-- Claim C2: the variant of a scanned number is decided solely by
whether a dot occurs in the scanned digit run — `Float` exactly when a
dot occurs, `Integer` exactly otherwise — and on the spec's examples
`3` scans to `Integer 3`, `3.0` to `Float 3.0` and `-5` to
`Integer (-5)`. -/
theorem c2_number_variants :
    (∀ d n rest, tokenize_number d = .ok (n, rest) →
      (((∃ q, n = Number.Float q) ↔ '.' ∈ numberRun d) ∧
       ((∃ i, n = Number.Integer i) ↔ '.' ∉ numberRun d))) ∧
    tokenize ("3".toList) = .ok [Token.Number (.Integer 3)] ∧
    tokenize ("3.0".toList) = .ok [Token.Number (.Float 3)] ∧
    tokenize ("-5".toList) = .ok [Token.Number (.Integer (-5))] := by
  refine ⟨?_, rfl, rfl, rfl⟩
  intro d n rest h
  simp only [tokenize_number] at h
  by_cases hdot : '.' ∈ (scanDigits (numberTail d).2).1
  · rw [if_pos hdot] at h
    cases hp : parseFloat ((if (numberTail d).1 then ['-'] else []) ++
        (scanDigits (numberTail d).2).1) with
    | error e => rw [hp] at h; simp at h
    | ok q =>
      rw [hp] at h
      simp only [Except.ok.injEq, Prod.mk.injEq] at h
      obtain ⟨hn, -⟩ := h
      subst hn
      constructor
      · exact ⟨fun _ => hdot, fun _ => ⟨q, rfl⟩⟩
      · constructor
        · rintro ⟨i, hi⟩; cases hi
        · intro hni; exact absurd hdot hni
  · rw [if_neg hdot] at h
    cases hp : parseI64 ((if (numberTail d).1 then ['-'] else []) ++
        (scanDigits (numberTail d).2).1) with
    | error e => rw [hp] at h; simp at h
    | ok i =>
      rw [hp] at h
      simp only [Except.ok.injEq, Prod.mk.injEq] at h
      obtain ⟨hn, -⟩ := h
      subst hn
      constructor
      · constructor
        · rintro ⟨q, hq⟩; cases hq
        · intro hm; exact absurd hm hdot
      · exact ⟨fun _ => hdot, fun _ => ⟨i, rfl⟩⟩

/-- Claim C2, witness at the input `3.0`. -/
theorem c2_number_variants_witness :
    ((∃ q, Number.Float 3 = Number.Float q) ↔ '.' ∈ numberRun ("3.0".toList)) ∧
    ((∃ i, Number.Float 3 = Number.Integer i) ↔ '.' ∉ numberRun ("3.0".toList)) :=
  c2_number_variants.1 ("3.0".toList) (.Float 3) [] rfl

/-- Claim C3: inserting under a key that is already bound overwrites the
binding (its lookup afterwards returns the newly inserted value), key
uniqueness is preserved and the inserted key occurs exactly once, and
parsing `{"a":1,"a":2}` yields an object with the single key `a` bound
to 2 — last write wins. -/
theorem c3_duplicate_keys :
    (∀ obj key v, lookupKey (insertKey obj key v) key = some v) ∧
    (∀ obj key v, keysNodup obj → keysNodup (insertKey obj key v)) ∧
    (∀ obj key v, keysNodup obj → countKey (insertKey obj key v) key = 1) ∧
    parse_object ("\x7b\"a\":1,\"a\":2\x7d".toList)
      = .ok (.Object [(['a'], .Number (.Integer 2))]) :=
  ⟨lookupKey_insertKey, keysNodup_insertKey, countKey_insertKey, rfl⟩

/-- Claim C3, witness: inserting the key `a` into a singleton map with
that key leaves exactly one binding of the key. -/
theorem c3_duplicate_keys_witness :
    countKey (insertKey [(['a'], JsonObject.Null)] ['a'] (JsonObject.Bool true))
      ['a'] = 1 :=
  c3_duplicate_keys.2.2.1 [(['a'], JsonObject.Null)] ['a'] (JsonObject.Bool true)
    (by simp [keysNodup])

/-- Claim C4: the empty input (and any all-whitespace input) tokenizes
to the empty token sequence without error, and the top-level parse of
such input fails with "Empty input" — so the error arises in the
parser, not the tokenizer. -/
theorem c4_empty_input :
    tokenize ([] : List Char) = .ok [] ∧
    parse_object ([] : List Char) = .error "Empty input" ∧
    (∀ ws : List Char, (∀ c ∈ ws, isWhitespaceChar c = true) →
      tokenize ws = .ok [] ∧ parse_object ws = .error "Empty input") := by
  refine ⟨rfl, rfl, ?_⟩
  intro ws h
  have hskip : skip_whitespace ws = [] := skip_whitespace_all ws h
  have ht : tokenize ws = .ok [] := by
    simp [tokenize, tokenizeAux, hskip]
  refine ⟨ht, ?_⟩
  simp [parse_object, ht, parse_tokens]

/-- Claim C4, witness at the one-space input. -/
theorem c4_empty_input_witness :
    tokenize [' '] = .ok [] ∧ parse_object [' '] = .error "Empty input" :=
  c4_empty_input.2.2 [' '] (by decide)

/-- Claim C5: a `Comma` token at the cursor of the array or object loop
is skipped — the cursor advances by one and nothing is appended or
consumed — so inputs with leading, doubled, trailing or missing commas
parse to the same value as the correctly separated input, as on the
examples `[1,2]`, `[1,,2,]`, `[,1,2]`, `[1 2]` and `{,"a":1,}`. -/
theorem c5_comma_skipping :
    (∀ f ts pos arr (hpos : pos < ts.length), ts[pos] = Token.Comma →
      parse_array_loop (f + 1) ts pos arr = parse_array_loop f ts (pos + 1) arr) ∧
    (∀ f ts pos obj (hpos : pos < ts.length), ts[pos] = Token.Comma →
      parse_object_loop (f + 1) ts pos obj = parse_object_loop f ts (pos + 1) obj) ∧
    parse_object ("[1,2]".toList)
      = .ok (.Array [.Number (.Integer 1), .Number (.Integer 2)]) ∧
    parse_object ("[1,,2,]".toList)
      = .ok (.Array [.Number (.Integer 1), .Number (.Integer 2)]) ∧
    parse_object ("[,1,2]".toList)
      = .ok (.Array [.Number (.Integer 1), .Number (.Integer 2)]) ∧
    parse_object ("[1 2]".toList)
      = .ok (.Array [.Number (.Integer 1), .Number (.Integer 2)]) ∧
    parse_object ("\x7b,\"a\":1,\x7d".toList)
      = parse_object ("\x7b\"a\":1\x7d".toList) := by
  refine ⟨?_, ?_, rfl, rfl, rfl, rfl, rfl⟩
  · intro f ts pos arr hpos htok
    exact parse_array_loop_succ_comma f ts pos arr hpos htok
  · intro f ts pos obj hpos htok
    exact parse_object_loop_succ_comma f ts pos obj hpos htok

/-- Claim C5, witness on a singleton comma token sequence. -/
theorem c5_comma_skipping_witness :
    parse_array_loop 1 [Token.Comma] 0 [] = parse_array_loop 0 [Token.Comma] 1 [] ∧
    parse_object_loop 1 [Token.Comma] 0 [] = parse_object_loop 0 [Token.Comma] 1 [] :=
  ⟨c5_comma_skipping.1 0 [Token.Comma] 0 [] (by decide) rfl,
   c5_comma_skipping.2.1 0 [Token.Comma] 0 [] (by decide) rfl⟩

/-- Claim C6: the top-level parse consumes one root value from position 0
and silently ignores trailing tokens — if a value parses from a token
sequence, the same value is returned for the sequence extended by any
trailing tokens; concretely, `null false` parses to `Null` and
`[1,2] 7` parses to the two-element array. -/
theorem c6_trailing_tokens :
    (∀ ts extra v p, parse_value (parseFuel ts) ts 0 = .ok (v, p) →
      parse_tokens ts = .ok v ∧ parse_tokens (ts ++ extra) = .ok v) ∧
    parse_object ("null false".toList) = .ok .Null ∧
    parse_object ("[1,2] 7".toList)
      = .ok (.Array [.Number (.Integer 1), .Number (.Integer 2)]) := by
  refine ⟨?_, rfl, rfl⟩
  intro ts extra v p h
  have hne : ts ≠ [] := by
    intro hnil
    subst hnil
    have := (parse_bounds (parseFuel [])).1 [] 0 v p h
    simp only [List.length_nil] at this
    omega
  have hE : ts.isEmpty = false := by
    cases ts
    · exact absurd rfl hne
    · rfl
  have hE2 : (ts ++ extra).isEmpty = false := by
    cases ts
    · exact absurd rfl hne
    · rfl
  constructor
  · simp only [parse_tokens]
    rw [if_neg (by simp [hE]), h]
  · have h2 : parse_value (parseFuel (ts ++ extra)) ts 0 = .ok (v, p) :=
      parse_value_mono_le ts 0 (v, p) (parseFuel ts) h _
        (by simp only [parseFuel, List.length_append]; omega)
    have h3 : parse_value (parseFuel (ts ++ extra)) (ts ++ extra) 0 = .ok (v, p) :=
      (parse_ext (parseFuel (ts ++ extra))).1 ts extra 0 (v, p) h2
    simp only [parse_tokens]
    rw [if_neg (by simp [hE2]), h3]

/-- Claim C6, witness: `Null` followed by a trailing token. -/
theorem c6_trailing_tokens_witness :
    parse_tokens [Token.Null] = .ok JsonObject.Null ∧
    parse_tokens [Token.Null, Token.Bool false] = .ok JsonObject.Null :=
  c6_trailing_tokens.1 [Token.Null] [Token.Bool false] JsonObject.Null 1 rfl

/-- Claim C7, counterexample: the inputs `12` and `1 2` differ only in a
whitespace character outside any string literal, yet they tokenize to
different token sequences (and parse to different trees: `12` versus
`1`), because the inserted space splits the numeric token. -/
theorem c7_counterexample :
    tokenize ("12".toList) = .ok [Token.Number (.Integer 12)] ∧
    tokenize ("1 2".toList)
      = .ok [Token.Number (.Integer 1), Token.Number (.Integer 2)] ∧
    [Token.Number (Number.Integer 12)]
      ≠ [Token.Number (.Integer 1), Token.Number (.Integer 2)] ∧
    parse_object ("12".toList) = .ok (.Number (.Integer 12)) ∧
    parse_object ("1 2".toList) = .ok (.Number (.Integer 1)) :=
  ⟨rfl, rfl, by decide, rfl, rfl⟩

/-- Claim C7, amended: whitespace before a token never affects the
result — prepending any all-whitespace run to the remaining input (at
any point of the scanning loop, hence between any two tokens) leaves
tokenization unchanged — and the spec's example inputs
`{ "a" : 1 }` and `{"a":1}` parse to equal trees. -/
theorem c7_whitespace_between_tokens :
    (∀ f ws cs, (∀ c ∈ ws, isWhitespaceChar c = true) →
      tokenizeAux f (ws ++ cs) = tokenizeAux f cs) ∧
    (∀ ws cs, (∀ c ∈ ws, isWhitespaceChar c = true) →
      tokenize (ws ++ cs) = tokenize cs) ∧
    parse_object ("\x7b \"a\" : 1 \x7d".toList)
      = parse_object ("\x7b\"a\":1\x7d".toList) ∧
    parse_object ("\x7b\"a\":1\x7d".toList)
      = .ok (.Object [(['a'], .Number (.Integer 1))]) := by
  refine ⟨?_, ?_, rfl, rfl⟩
  · intro f ws cs h
    exact tokenizeAux_ws_prepend f ws cs h
  · intro ws cs h
    exact tokenize_ws_prepend ws cs h

/-- Claim C7, amended, witness: a leading space before `1`. -/
theorem c7_whitespace_between_tokens_witness :
    tokenize ((" ".toList) ++ ("1".toList)) = tokenize ("1".toList) :=
  c7_whitespace_between_tokens.2.1 (" ".toList) ("1".toList) (by decide)

/-- Claim C8: boolean scanning succeeds exactly when the keyword `true`
or `false` is matched case-sensitively at its exact length, fails with
"Invalid boolean" on any other input, and tokenizing `tru` fails with
that error. -/
theorem c8_bool_tokens :
    (∀ d b rem, tokenize_bool d = .ok (b, rem) ↔
      ((b = true ∧ d.take 4 = ['t', 'r', 'u', 'e'] ∧ rem = d.drop 4) ∨
       (b = false ∧ d.take 5 = ['f', 'a', 'l', 's', 'e'] ∧ rem = d.drop 5))) ∧
    (∀ d, d.take 4 ≠ ['t', 'r', 'u', 'e'] → d.take 5 ≠ ['f', 'a', 'l', 's', 'e'] →
      tokenize_bool d = .error "Invalid boolean") ∧
    tokenize ("tru".toList) = .error "Invalid boolean" := by
  refine ⟨?_, ?_, rfl⟩
  · intro d b rem
    constructor
    · intro h
      simp only [tokenize_bool] at h
      by_cases h4 : d.take 4 = ['t', 'r', 'u', 'e']
      · rw [if_pos h4] at h
        simp only [Except.ok.injEq, Prod.mk.injEq] at h
        exact Or.inl ⟨h.1.symm, h4, h.2.symm⟩
      · rw [if_neg h4] at h
        by_cases h5 : d.take 5 = ['f', 'a', 'l', 's', 'e']
        · rw [if_pos h5] at h
          simp only [Except.ok.injEq, Prod.mk.injEq] at h
          exact Or.inr ⟨h.1.symm, h5, h.2.symm⟩
        · rw [if_neg h5] at h
          simp at h
    · rintro (⟨hb, h4, hr⟩ | ⟨hb, h5, hr⟩)
      · subst hb
        subst hr
        simp only [tokenize_bool, if_pos h4]
      · subst hb
        subst hr
        have h4 : d.take 4 ≠ ['t', 'r', 'u', 'e'] := by
          have hc := congrArg (List.take 4) h5
          simp [List.take_take] at hc
          rw [hc]
          decide
        simp only [tokenize_bool, if_neg h4, if_pos h5]
  · intro d h4 h5
    simp only [tokenize_bool, if_neg h4, if_neg h5]

/-- Claim C8, witness at the inputs `true1` and `tru`. -/
theorem c8_bool_tokens_witness :
    tokenize_bool ("true1".toList) = .ok (true, ['1']) ∧
    tokenize_bool ("tru".toList) = .error "Invalid boolean" :=
  ⟨(c8_bool_tokens.1 ("true1".toList) true ['1']).mpr
      (Or.inl ⟨rfl, by decide, by decide⟩),
   c8_bool_tokens.2.1 ("tru".toList) (by decide) (by decide)⟩

/-- Claim C9: when the object (respectively array) loop reaches the end
of the token sequence without a closing brace (bracket), it fails with
"Unterminated object" ("Unterminated array") and returns no partial
value; in particular the inputs `{` and `[` fail that way. -/
theorem c9_unterminated :
    (∀ f ts pos obj, ts.length ≤ pos →
      parse_object_loop (f + 1) ts pos obj = .error "Unterminated object") ∧
    (∀ f ts pos arr, ts.length ≤ pos →
      parse_array_loop (f + 1) ts pos arr = .error "Unterminated array") ∧
    parse_object ("\x7b".toList) = .error "Unterminated object" ∧
    parse_object ("[".toList) = .error "Unterminated array" := by
  refine ⟨?_, ?_, rfl, rfl⟩
  · intro f ts pos obj h
    exact parse_object_loop_succ_end f ts pos obj (by omega)
  · intro f ts pos arr h
    exact parse_array_loop_succ_end f ts pos arr (by omega)

/-- Claim C9, witness at the empty token sequence. -/
theorem c9_unterminated_witness :
    parse_object_loop 1 [] 0 [] = .error "Unterminated object" ∧
    parse_array_loop 1 [] 0 [] = .error "Unterminated array" :=
  ⟨c9_unterminated.1 0 [] 0 [] (by decide),
   c9_unterminated.2.1 0 [] 0 [] (by decide)⟩

/-- Claim C10: every successful `parse_value` strictly advances the
cursor and leaves it within the token sequence; consequently the
recursion terminates — with the fuel the embedding allots, neither the
parser nor the tokenizer ever reports fuel exhaustion. -/
theorem c10_termination :
    (∀ f ts pos v p, parse_value f ts pos = .ok (v, p) →
      pos < p ∧ p ≤ ts.length) ∧
    (∀ ts pos, parse_value (3 * (ts.length - pos) + 1) ts pos
      ≠ .error fuelErr) ∧
    (∀ ts, parse_value (parseFuel ts) ts 0 ≠ .error fuelErr) ∧
    (∀ data, tokenize data ≠ .error fuelErr) := by
  refine ⟨?_, ?_, ?_, ?_⟩
  · intro f ts pos v p h
    exact (parse_bounds f).1 ts pos v p h
  · intro ts pos
    exact (parse_fuel_ok _).1 ts pos (by omega)
  · intro ts
    exact (parse_fuel_ok _).1 ts 0 (by simp only [parseFuel]; omega)
  · intro d
    exact tokenize_ne_fuelErr d

/-- Claim C10, witness at a singleton `null` token sequence. -/
theorem c10_termination_witness : 0 < 1 ∧ 1 ≤ 1 :=
  c10_termination.1 4 [Token.Null] 0 JsonObject.Null 1 rfl

end Tosqweel
